import Mathlib

/-!
Formal model of the J1939 CAN identifier codec implemented in `src/main.py`.

The Python code works on Python built-in integers, which are
arbitrary-precision signed integers whose bitwise operators act on the
infinite two's-complement representation.  We therefore embed the code over
`ℤ`:

* Python `x >> k` (arithmetic shift, i.e. floor division by `2 ^ k`) is
  `x >>> k` with `k : ℕ` (`Int.shiftRight`, which sends `-[n+1]` to
  `-[n >>> k + 1]`, exactly Python's floor-shift);
* Python `x << k` is `x <<< (k : ℤ)` (`Int.shiftLeft`, multiplication by
  `2 ^ k`);
* Python `x & y` is `Int.land` and Python `x | y` is `Int.lor`, the
  two's-complement bitwise operations of Mathlib, which agree with Python's
  on all integers, negative ones included.

`parse_j1939_id` returns a Python dict with seven fixed keys; we model it as
a record with those seven fields.  `build_j1939_id` has a Python default
argument `reserved=0`; in Lean the argument is simply explicit.
-/

namespace J1939

/-- The seven components returned by `parse_j1939_id` (the keys of the
Python dict, in source order). -/
@[ext]
structure J1939Fields where
  priority : Int
  reserved : Int
  data_page : Int
  pdu_format : Int
  pdu_specific : Int
  source_address : Int
  pgn : Int
  deriving Repr, DecidableEq

/-- Embedding of `parse_j1939_id` (src/main.py, lines 3–29).  The Python
line `can_id = int(can_id)` is the identity on integers and is dropped. -/
def parse_j1939_id (can_id : Int) : J1939Fields :=
  let priority := Int.land (can_id >>> (26 : Nat)) 0x7
  let reserved := Int.land (can_id >>> (25 : Nat)) 0x1
  let data_page := Int.land (can_id >>> (24 : Nat)) 0x1
  let pdu_format := Int.land (can_id >>> (16 : Nat)) 0xFF
  let pdu_specific := Int.land (can_id >>> (8 : Nat)) 0xFF
  let source_address := Int.land can_id 0xFF
  let pgn :=
    if pdu_format < 240 then
      -- PDU1 format, destination specific
      Int.lor (data_page <<< (16 : Int)) (pdu_format <<< (8 : Int))
    else
      -- PDU2 format, broadcast
      Int.lor (Int.lor (data_page <<< (16 : Int)) (pdu_format <<< (8 : Int)))
        pdu_specific
  { priority := priority
    reserved := reserved
    data_page := data_page
    pdu_format := pdu_format
    pdu_specific := pdu_specific
    source_address := source_address
    pgn := pgn }

/-- Embedding of `build_j1939_id` (src/main.py, lines 31–48).  In Python
`reserved` defaults to `0`; here it is an explicit argument. -/
def build_j1939_id (priority pgn source_address reserved : Int) : Int :=
  let priority := Int.land priority 0x7
  let reserved := Int.land reserved 0x1
  let source_address := Int.land source_address 0xFF
  -- Extract PGN components
  let data_page := Int.land (pgn >>> (16 : Nat)) 0x1
  let pdu_format := Int.land (pgn >>> (8 : Nat)) 0xFF
  let pdu_specific := Int.land pgn 0xFF
  let can_id :=
    Int.lor
      (Int.lor (Int.lor (priority <<< (26 : Int)) (reserved <<< (25 : Int)))
        (data_page <<< (24 : Int)))
      (pdu_format <<< (16 : Int))
  Int.lor can_id (Int.lor (pdu_specific <<< (8 : Int)) source_address)

/-!
Bridge lemmas: the two's-complement operations used by the code, applied to
an all-ones mask, a shift amount, or operands with disjoint binary support,
are plain integer arithmetic (`%`, `/`, `*`, `+`).
-/

/-- Bitwise AND with the all-ones mask `2 ^ w - 1` is reduction mod `2 ^ w`,
for every integer (two's complement), by induction on the width. -/
theorem land_mask : ∀ (w : Nat) (x : Int), Int.land x (2 ^ w - 1) = x % 2 ^ w := by
  intro w
  induction w with
  | zero =>
    intro x
    have h0 : (2 : Int) ^ 0 - 1 = 0 := by norm_num
    have h1 : (2 : Int) ^ 0 = 1 := by norm_num
    rw [h0, h1, Int.emod_one]
    cases x with
    | ofNat m =>
      show Int.land (Int.ofNat m) (Int.ofNat 0) = 0
      show Int.ofNat (m &&& 0) = 0
      rw [Nat.and_zero]
      rfl
    | negSucc m =>
      show Int.land (Int.negSucc m) (Int.ofNat 0) = 0
      show Int.ofNat (Nat.ldiff 0 m) = 0
      have : Nat.ldiff 0 m = 0 := by
        apply Nat.eq_of_testBit_eq
        intro i
        simp [Nat.testBit_ldiff]
      rw [this]
      rfl
  | succ w ih =>
    intro x
    have hbit : (2 : Int) ^ (w + 1) - 1 = Int.bit true (2 ^ w - 1) := by
      rw [Int.bit_val]
      simp only [cond_true]
      ring
    conv_lhs => rw [← Int.bit_decomp x, hbit]
    rw [Int.land_bit, ih, Bool.and_true, Int.bit_val]
    have hd := Int.bodd_add_div2 x
    have h2w : (0 : Int) < 2 ^ w := by positivity
    have hq := Int.ediv_add_emod x.div2 (2 ^ w)
    have hr0 : 0 ≤ x.div2 % 2 ^ w := Int.emod_nonneg _ (ne_of_gt h2w)
    have hr1 : x.div2 % 2 ^ w < 2 ^ w := Int.emod_lt_of_pos _ h2w
    have hpow : (2 : Int) ^ (w + 1) = 2 * 2 ^ w := by ring
    cases hb : x.bodd with
    | false =>
      rw [hb] at hd
      simp only [cond_false, add_zero, zero_add] at hd ⊢
      have hx : x = 2 * (x.div2 % 2 ^ w) + 2 ^ (w + 1) * (x.div2 / 2 ^ w) := by
        rw [hpow]
        nlinarith [hd, hq]
      have key : x % 2 ^ (w + 1) = 2 * (x.div2 % 2 ^ w) := by
        calc x % 2 ^ (w + 1)
            = (2 * (x.div2 % 2 ^ w) + 2 ^ (w + 1) * (x.div2 / 2 ^ w)) % 2 ^ (w + 1) := by
              rw [← hx]
          _ = 2 * (x.div2 % 2 ^ w) % 2 ^ (w + 1) := Int.add_mul_emod_self_left _ _ _
          _ = 2 * (x.div2 % 2 ^ w) :=
              Int.emod_eq_of_lt (by linarith) (by rw [hpow]; linarith)
      exact key.symm
    | true =>
      rw [hb] at hd
      simp only [cond_true] at hd ⊢
      have hx : x = (2 * (x.div2 % 2 ^ w) + 1) + 2 ^ (w + 1) * (x.div2 / 2 ^ w) := by
        rw [hpow]
        nlinarith [hd, hq]
      have key : x % 2 ^ (w + 1) = 2 * (x.div2 % 2 ^ w) + 1 := by
        calc x % 2 ^ (w + 1)
            = ((2 * (x.div2 % 2 ^ w) + 1) + 2 ^ (w + 1) * (x.div2 / 2 ^ w)) % 2 ^ (w + 1) := by
              rw [← hx]
          _ = (2 * (x.div2 % 2 ^ w) + 1) % 2 ^ (w + 1) := Int.add_mul_emod_self_left _ _ _
          _ = 2 * (x.div2 % 2 ^ w) + 1 :=
              Int.emod_eq_of_lt (by linarith) (by rw [hpow]; linarith)
      exact key.symm

/-- `x & 0x1` is `x % 2`. -/
theorem land_one (x : Int) : Int.land x 0x1 = x % 2 := by
  have h := land_mask 1 x
  norm_num at h
  exact h

/-- `x & 0x7` is `x % 8`. -/
theorem land_seven (x : Int) : Int.land x 0x7 = x % 8 := by
  have h := land_mask 3 x
  norm_num at h
  exact h

/-- `x & 0xFF` is `x % 256`. -/
theorem land_byte (x : Int) : Int.land x 0xFF = x % 256 := by
  have h := land_mask 8 x
  norm_num at h
  exact h

/-- `x & 0x1FFFF` is `x % 131072`. -/
theorem land_17bits (x : Int) : Int.land x 0x1FFFF = x % 131072 := by
  have h := land_mask 17 x
  norm_num at h
  exact h

/-- `Int.lor` on two natural numbers is `Nat.lor`. -/
theorem lor_coe (m n : Nat) : Int.lor (m : Int) (n : Int) = ((m ||| n : Nat) : Int) := rfl

/-- On naturals, or-ing a multiple of `2 ^ k` with a number below `2 ^ k`
is addition: the binary supports are disjoint. -/
theorem nat_mul_pow_lor {q n k : Nat} (hn : n < 2 ^ k) :
    (2 ^ k * q) ||| n = 2 ^ k * q + n := by
  apply Nat.eq_of_testBit_eq
  intro j
  rw [Nat.testBit_lor, Nat.testBit_mul_pow_two_add q hn j]
  have h0 : (0 : Nat) < 2 ^ k := by positivity
  have ht : (2 ^ k * q).testBit j = if j < k then false else q.testBit (j - k) := by
    have h := Nat.testBit_mul_pow_two_add q h0 j
    simpa using h
  rw [ht]
  split_ifs with hj
  · simp
  · have hnj : n.testBit j = false :=
      Nat.testBit_lt_two_pow
        (lt_of_lt_of_le hn (Nat.pow_le_pow_right (by norm_num) (le_of_not_lt hj)))
    simp [hnj]

/-- `Int.lor` of a nonnegative multiple of `2 ^ k` and a number in
`[0, 2 ^ k)` is addition. -/
theorem lor_add_of (k : Nat) {a b : Int} (ha : 0 ≤ a) (hd : (2 : Int) ^ k ∣ a)
    (hb : 0 ≤ b) (hbk : b < 2 ^ k) : Int.lor a b = a + b := by
  lift a to ℕ using ha with m
  lift b to ℕ using hb with n
  obtain ⟨q, hq⟩ := hd
  have h2k : (0 : Int) < 2 ^ k := by positivity
  have hq0 : 0 ≤ q := by
    rcases lt_or_le q 0 with h | h
    · exfalso
      have hneg : (2 : Int) ^ k * q < 0 := mul_neg_of_pos_of_neg h2k h
      rw [← hq] at hneg
      exact absurd hneg (not_lt.mpr (Int.natCast_nonneg m))
    · exact h
  lift q to ℕ using hq0 with q
  have hm : m = 2 ^ k * q := by exact_mod_cast hq
  have hn : n < 2 ^ k := by exact_mod_cast hbk
  subst hm
  rw [lor_coe, nat_mul_pow_lor hn]
  push_cast
  ring

/-- `x >> 8` is floor division by `2 ^ 8`. -/
theorem shr8 (x : Int) : x >>> (8 : Nat) = x / 2 ^ 8 := by
  exact_mod_cast Int.shiftRight_eq_div_pow x 8

/-- `x >> 16` is floor division by `2 ^ 16`. -/
theorem shr16 (x : Int) : x >>> (16 : Nat) = x / 2 ^ 16 := by
  exact_mod_cast Int.shiftRight_eq_div_pow x 16

/-- `x >> 24` is floor division by `2 ^ 24`. -/
theorem shr24 (x : Int) : x >>> (24 : Nat) = x / 2 ^ 24 := by
  exact_mod_cast Int.shiftRight_eq_div_pow x 24

/-- `x >> 25` is floor division by `2 ^ 25`. -/
theorem shr25 (x : Int) : x >>> (25 : Nat) = x / 2 ^ 25 := by
  exact_mod_cast Int.shiftRight_eq_div_pow x 25

/-- `x >> 26` is floor division by `2 ^ 26`. -/
theorem shr26 (x : Int) : x >>> (26 : Nat) = x / 2 ^ 26 := by
  exact_mod_cast Int.shiftRight_eq_div_pow x 26

/-- `x << 8` is multiplication by `2 ^ 8`. -/
theorem shl8 (x : Int) : x <<< (8 : Int) = x * 2 ^ 8 := by
  exact_mod_cast Int.shiftLeft_eq_mul_pow x 8

/-- `x << 16` is multiplication by `2 ^ 16`. -/
theorem shl16 (x : Int) : x <<< (16 : Int) = x * 2 ^ 16 := by
  exact_mod_cast Int.shiftLeft_eq_mul_pow x 16

/-- `x << 24` is multiplication by `2 ^ 24`. -/
theorem shl24 (x : Int) : x <<< (24 : Int) = x * 2 ^ 24 := by
  exact_mod_cast Int.shiftLeft_eq_mul_pow x 24

/-- `x << 25` is multiplication by `2 ^ 25`. -/
theorem shl25 (x : Int) : x <<< (25 : Int) = x * 2 ^ 25 := by
  exact_mod_cast Int.shiftLeft_eq_mul_pow x 25

/-- `x << 26` is multiplication by `2 ^ 26`. -/
theorem shl26 (x : Int) : x <<< (26 : Int) = x * 2 ^ 26 := by
  exact_mod_cast Int.shiftLeft_eq_mul_pow x 26

/-- Arithmetic normal form of the decoder: every field of
`parse_j1939_id can_id` written with `/`, `%`, `*`, `+` only. -/
theorem parse_fields_eq (c : Int) : parse_j1939_id c =
    { priority := c / 2 ^ 26 % 8
      reserved := c / 2 ^ 25 % 2
      data_page := c / 2 ^ 24 % 2
      pdu_format := c / 2 ^ 16 % 256
      pdu_specific := c / 2 ^ 8 % 256
      source_address := c % 256
      pgn :=
        if c / 2 ^ 16 % 256 < 240 then
          c / 2 ^ 24 % 2 * 2 ^ 16 + c / 2 ^ 16 % 256 * 2 ^ 8
        else
          c / 2 ^ 24 % 2 * 2 ^ 16 + c / 2 ^ 16 % 256 * 2 ^ 8 + c / 2 ^ 8 % 256 } := by
  have h1 : Int.lor (c / 2 ^ 24 % 2 * 2 ^ 16) (c / 2 ^ 16 % 256 * 2 ^ 8) =
      c / 2 ^ 24 % 2 * 2 ^ 16 + c / 2 ^ 16 % 256 * 2 ^ 8 :=
    lor_add_of 16 (by omega) (dvd_mul_left _ _) (by omega) (by omega)
  have h2 : Int.lor (c / 2 ^ 24 % 2 * 2 ^ 16 + c / 2 ^ 16 % 256 * 2 ^ 8) (c / 2 ^ 8 % 256) =
      c / 2 ^ 24 % 2 * 2 ^ 16 + c / 2 ^ 16 % 256 * 2 ^ 8 + c / 2 ^ 8 % 256 :=
    lor_add_of 8 (by omega) ⟨c / 2 ^ 24 % 2 * 2 ^ 8 + c / 2 ^ 16 % 256, by ring⟩
      (by omega) (by omega)
  simp only [parse_j1939_id, shr26, shr25, shr24, shr16, shr8, land_seven, land_one,
    land_byte, shl16, shl8, h1, h2]

/-- Arithmetic normal form of the encoder: `build_j1939_id` written with
`/`, `%`, `*`, `+` only. -/
theorem build_eq (p g s r : Int) : build_j1939_id p g s r =
    p % 8 * 2 ^ 26 + r % 2 * 2 ^ 25 + g / 2 ^ 16 % 2 * 2 ^ 24 +
      g / 2 ^ 8 % 256 * 2 ^ 16 + g % 256 * 2 ^ 8 + s % 256 := by
  have e1 : Int.lor (p % 8 * 2 ^ 26) (r % 2 * 2 ^ 25) =
      p % 8 * 2 ^ 26 + r % 2 * 2 ^ 25 :=
    lor_add_of 26 (by omega) (dvd_mul_left _ _) (by omega) (by omega)
  have e2 : Int.lor (p % 8 * 2 ^ 26 + r % 2 * 2 ^ 25) (g / 2 ^ 16 % 2 * 2 ^ 24) =
      p % 8 * 2 ^ 26 + r % 2 * 2 ^ 25 + g / 2 ^ 16 % 2 * 2 ^ 24 :=
    lor_add_of 25 (by omega) ⟨p % 8 * 2 + r % 2, by ring⟩ (by omega) (by omega)
  have e3 : Int.lor (p % 8 * 2 ^ 26 + r % 2 * 2 ^ 25 + g / 2 ^ 16 % 2 * 2 ^ 24)
      (g / 2 ^ 8 % 256 * 2 ^ 16) =
      p % 8 * 2 ^ 26 + r % 2 * 2 ^ 25 + g / 2 ^ 16 % 2 * 2 ^ 24 +
        g / 2 ^ 8 % 256 * 2 ^ 16 :=
    lor_add_of 24 (by omega) ⟨p % 8 * 4 + r % 2 * 2 + g / 2 ^ 16 % 2, by ring⟩
      (by omega) (by omega)
  have e4 : Int.lor (g % 256 * 2 ^ 8) (s % 256) = g % 256 * 2 ^ 8 + s % 256 :=
    lor_add_of 8 (by omega) (dvd_mul_left _ _) (by omega) (by omega)
  have e5 : Int.lor
      (p % 8 * 2 ^ 26 + r % 2 * 2 ^ 25 + g / 2 ^ 16 % 2 * 2 ^ 24 +
        g / 2 ^ 8 % 256 * 2 ^ 16)
      (g % 256 * 2 ^ 8 + s % 256) =
      p % 8 * 2 ^ 26 + r % 2 * 2 ^ 25 + g / 2 ^ 16 % 2 * 2 ^ 24 +
        g / 2 ^ 8 % 256 * 2 ^ 16 + (g % 256 * 2 ^ 8 + s % 256) :=
    lor_add_of 16 (by omega)
      ⟨p % 8 * 2 ^ 10 + r % 2 * 2 ^ 9 + g / 2 ^ 16 % 2 * 2 ^ 8 + g / 2 ^ 8 % 256, by ring⟩
      (by omega) (by omega)
  simp only [build_j1939_id, shr16, shr8, land_seven, land_one, land_byte, shl26, shl25,
    shl24, shl16, shl8, e1, e2, e3, e4, e5]
  ring

/-!
Claim theorems.  Each statement uses the Python-operator form of the claim
(`Int.land`, `Int.lor`, `<<<`, `>>>`), and is settled through the arithmetic
normal forms above.
-/

/-- C1: for every integer `can_id` in `[0, 2^29)`, the six primitive fields
of `parse_j1939_id can_id` recombine bit-exactly to `can_id` via the encode
reassembly formula
`(priority<<26)|(reserved<<25)|(data_page<<24)|(pdu_format<<16)|(pdu_specific<<8)|source_address`. -/
theorem fields_recombine_to_can_id (c : Int) (h0 : 0 ≤ c) (h1 : c < 2 ^ 29) :
    Int.lor
      (Int.lor
        (Int.lor
          (Int.lor
            (Int.lor ((parse_j1939_id c).priority <<< (26 : Int))
              ((parse_j1939_id c).reserved <<< (25 : Int)))
            ((parse_j1939_id c).data_page <<< (24 : Int)))
          ((parse_j1939_id c).pdu_format <<< (16 : Int)))
        ((parse_j1939_id c).pdu_specific <<< (8 : Int)))
      (parse_j1939_id c).source_address = c := by
  have l1 : Int.lor (c / 2 ^ 26 % 8 * 2 ^ 26) (c / 2 ^ 25 % 2 * 2 ^ 25) =
      c / 2 ^ 26 % 8 * 2 ^ 26 + c / 2 ^ 25 % 2 * 2 ^ 25 :=
    lor_add_of 26 (by omega) (dvd_mul_left _ _) (by omega) (by omega)
  have l2 : Int.lor (c / 2 ^ 26 % 8 * 2 ^ 26 + c / 2 ^ 25 % 2 * 2 ^ 25)
      (c / 2 ^ 24 % 2 * 2 ^ 24) =
      c / 2 ^ 26 % 8 * 2 ^ 26 + c / 2 ^ 25 % 2 * 2 ^ 25 + c / 2 ^ 24 % 2 * 2 ^ 24 :=
    lor_add_of 25 (by omega) ⟨c / 2 ^ 26 % 8 * 2 + c / 2 ^ 25 % 2, by ring⟩
      (by omega) (by omega)
  have l3 : Int.lor
      (c / 2 ^ 26 % 8 * 2 ^ 26 + c / 2 ^ 25 % 2 * 2 ^ 25 + c / 2 ^ 24 % 2 * 2 ^ 24)
      (c / 2 ^ 16 % 256 * 2 ^ 16) =
      c / 2 ^ 26 % 8 * 2 ^ 26 + c / 2 ^ 25 % 2 * 2 ^ 25 + c / 2 ^ 24 % 2 * 2 ^ 24 +
        c / 2 ^ 16 % 256 * 2 ^ 16 :=
    lor_add_of 24 (by omega)
      ⟨c / 2 ^ 26 % 8 * 4 + c / 2 ^ 25 % 2 * 2 + c / 2 ^ 24 % 2, by ring⟩
      (by omega) (by omega)
  have l4 : Int.lor
      (c / 2 ^ 26 % 8 * 2 ^ 26 + c / 2 ^ 25 % 2 * 2 ^ 25 + c / 2 ^ 24 % 2 * 2 ^ 24 +
        c / 2 ^ 16 % 256 * 2 ^ 16)
      (c / 2 ^ 8 % 256 * 2 ^ 8) =
      c / 2 ^ 26 % 8 * 2 ^ 26 + c / 2 ^ 25 % 2 * 2 ^ 25 + c / 2 ^ 24 % 2 * 2 ^ 24 +
        c / 2 ^ 16 % 256 * 2 ^ 16 + c / 2 ^ 8 % 256 * 2 ^ 8 :=
    lor_add_of 16 (by omega)
      ⟨c / 2 ^ 26 % 8 * 2 ^ 10 + c / 2 ^ 25 % 2 * 2 ^ 9 + c / 2 ^ 24 % 2 * 2 ^ 8 +
        c / 2 ^ 16 % 256, by ring⟩
      (by omega) (by omega)
  have l5 : Int.lor
      (c / 2 ^ 26 % 8 * 2 ^ 26 + c / 2 ^ 25 % 2 * 2 ^ 25 + c / 2 ^ 24 % 2 * 2 ^ 24 +
        c / 2 ^ 16 % 256 * 2 ^ 16 + c / 2 ^ 8 % 256 * 2 ^ 8)
      (c % 256) =
      c / 2 ^ 26 % 8 * 2 ^ 26 + c / 2 ^ 25 % 2 * 2 ^ 25 + c / 2 ^ 24 % 2 * 2 ^ 24 +
        c / 2 ^ 16 % 256 * 2 ^ 16 + c / 2 ^ 8 % 256 * 2 ^ 8 + c % 256 :=
    lor_add_of 8 (by omega)
      ⟨c / 2 ^ 26 % 8 * 2 ^ 18 + c / 2 ^ 25 % 2 * 2 ^ 17 + c / 2 ^ 24 % 2 * 2 ^ 16 +
        c / 2 ^ 16 % 256 * 2 ^ 8 + c / 2 ^ 8 % 256, by ring⟩
      (by omega) (by omega)
  simp only [parse_fields_eq, shl26, shl25, shl24, shl16, shl8, l1, l2, l3, l4, l5]
  omega

/-- C1 witness: the recombination identity instantiated at the concrete
29-bit identifier 0x18FEF100. -/
theorem fields_recombine_to_can_id_witness :
    (0 : Int) ≤ 0x18FEF100 ∧ (0x18FEF100 : Int) < 2 ^ 29 ∧
    Int.lor
      (Int.lor
        (Int.lor
          (Int.lor
            (Int.lor ((parse_j1939_id 0x18FEF100).priority <<< (26 : Int))
              ((parse_j1939_id 0x18FEF100).reserved <<< (25 : Int)))
            ((parse_j1939_id 0x18FEF100).data_page <<< (24 : Int)))
          ((parse_j1939_id 0x18FEF100).pdu_format <<< (16 : Int)))
        ((parse_j1939_id 0x18FEF100).pdu_specific <<< (8 : Int)))
      (parse_j1939_id 0x18FEF100).source_address = 0x18FEF100 :=
  ⟨by decide, by decide, fields_recombine_to_can_id 0x18FEF100 (by decide) (by decide)⟩

/-- C2: encoding a PDU2 PGN (format byte at least 240) with in-range
priority, source address and reserved bit, then decoding, returns
`pgn & 0x1FFFF` as the PGN, with data page, PDU format and PDU specific
all preserved. -/
theorem pdu2_roundtrip_pgn (p g s r : Int) (hp0 : 0 ≤ p) (hp1 : p ≤ 7)
    (hs0 : 0 ≤ s) (hs1 : s ≤ 255) (hr0 : 0 ≤ r) (hr1 : r ≤ 1) (hg : 0 ≤ g)
    (hpf : 240 ≤ Int.land (g >>> (8 : Nat)) 0xFF) :
    (parse_j1939_id (build_j1939_id p g s r)).pgn = Int.land g 0x1FFFF ∧
    (parse_j1939_id (build_j1939_id p g s r)).data_page = Int.land (g >>> (16 : Nat)) 0x1 ∧
    (parse_j1939_id (build_j1939_id p g s r)).pdu_format = Int.land (g >>> (8 : Nat)) 0xFF ∧
    (parse_j1939_id (build_j1939_id p g s r)).pdu_specific = Int.land g 0xFF := by
  rw [shr8, land_byte] at hpf
  simp only [build_eq, parse_fields_eq, land_17bits, land_one, land_byte, shr16, shr8]
  split_ifs with h <;> omega

/-- C2 witness: instantiated at priority 6, pgn 65262 (format byte 0xFE),
source address 0, reserved 0. -/
theorem pdu2_roundtrip_pgn_witness :
    240 ≤ Int.land ((65262 : Int) >>> (8 : Nat)) 0xFF ∧
    ((parse_j1939_id (build_j1939_id 6 65262 0 0)).pgn = Int.land 65262 0x1FFFF ∧
    (parse_j1939_id (build_j1939_id 6 65262 0 0)).data_page =
      Int.land ((65262 : Int) >>> (16 : Nat)) 0x1 ∧
    (parse_j1939_id (build_j1939_id 6 65262 0 0)).pdu_format =
      Int.land ((65262 : Int) >>> (8 : Nat)) 0xFF ∧
    (parse_j1939_id (build_j1939_id 6 65262 0 0)).pdu_specific = Int.land 65262 0xFF) :=
  ⟨by rw [shr8, land_byte]; decide,
    pdu2_roundtrip_pgn 6 65262 0 0 (by decide) (by decide) (by decide) (by decide)
      (by decide) (by decide) (by decide) (by rw [shr8, land_byte]; decide)⟩

/-- C3: encoding a PDU1 PGN (format byte strictly below 240) and decoding
yields `((pgn>>16)&0x1)<<16 | ((pgn>>8)&0xFF)<<8` as the PGN, whatever the
low `pgn & 0xFF` bits were — the intentional information loss of the PDU1
branch. -/
theorem pdu1_pgn_loss (p g s r : Int)
    (hpf : Int.land (g >>> (8 : Nat)) 0xFF < 240) :
    (parse_j1939_id (build_j1939_id p g s r)).pgn =
      Int.lor (Int.land (g >>> (16 : Nat)) 0x1 <<< (16 : Int))
        (Int.land (g >>> (8 : Nat)) 0xFF <<< (8 : Int)) := by
  rw [shr8, land_byte] at hpf
  have hR : Int.lor (g / 2 ^ 16 % 2 * 2 ^ 16) (g / 2 ^ 8 % 256 * 2 ^ 8) =
      g / 2 ^ 16 % 2 * 2 ^ 16 + g / 2 ^ 8 % 256 * 2 ^ 8 :=
    lor_add_of 16 (by omega) (dvd_mul_left _ _) (by omega) (by omega)
  simp only [build_eq, parse_fields_eq, land_one, land_byte, shr16, shr8, shl16, shl8, hR]
  split_ifs with h <;> omega

/-- C3 witness: instantiated at priority 0, pgn 0x100 (format byte 1,
specific byte 0), source address 5, reserved 0. -/
theorem pdu1_pgn_loss_witness :
    Int.land ((0x100 : Int) >>> (8 : Nat)) 0xFF < 240 ∧
    (parse_j1939_id (build_j1939_id 0 0x100 5 0)).pgn =
      Int.lor (Int.land ((0x100 : Int) >>> (16 : Nat)) 0x1 <<< (16 : Int))
        (Int.land ((0x100 : Int) >>> (8 : Nat)) 0xFF <<< (8 : Int)) :=
  ⟨by rw [shr8, land_byte]; decide,
    pdu1_pgn_loss 0 0x100 5 0 (by rw [shr8, land_byte]; decide)⟩

/-- C4: for all integer inputs, decode after encode reproduces priority,
reserved and source address masked to their native widths, and reproduces
data page and PDU format as extracted from the input PGN. -/
theorem roundtrip_masked_fields (p g s r : Int) :
    (parse_j1939_id (build_j1939_id p g s r)).priority = Int.land p 0x7 ∧
    (parse_j1939_id (build_j1939_id p g s r)).reserved = Int.land r 0x1 ∧
    (parse_j1939_id (build_j1939_id p g s r)).source_address = Int.land s 0xFF ∧
    (parse_j1939_id (build_j1939_id p g s r)).data_page = Int.land (g >>> (16 : Nat)) 0x1 ∧
    (parse_j1939_id (build_j1939_id p g s r)).pdu_format = Int.land (g >>> (8 : Nat)) 0xFF := by
  simp only [build_eq, parse_fields_eq, land_seven, land_one, land_byte, shr16, shr8]
  refine ⟨by omega, by omega, by omega, by omega, by omega⟩

/-- C5: `parse_j1939_id` is total over all integers, and its result depends
only on the low 29 bits: for every integer `can_id`, decoding `can_id` and
decoding `can_id % 2^29` give the same record. -/
theorem parse_depends_on_low_29_bits (c : Int) :
    parse_j1939_id c = parse_j1939_id (c % 2 ^ 29) := by
  simp only [parse_fields_eq, J1939Fields.mk.injEq]
  refine ⟨by omega, by omega, by omega, by omega, by omega, by omega, ?_⟩
  have hpf : c % 2 ^ 29 / 2 ^ 16 % 256 = c / 2 ^ 16 % 256 := by omega
  rw [hpf]
  split_ifs <;> omega

/-- C6: `build_j1939_id` truncates out-of-range priority, source address
and reserved inputs to their native widths instead of rejecting them:
masking those arguments first does not change the output. -/
theorem build_masks_inputs (p g s r : Int) :
    build_j1939_id p g s r =
      build_j1939_id (Int.land p 0x7) g (Int.land s 0xFF) (Int.land r 0x1) := by
  simp only [build_eq, land_seven, land_byte, land_one]
  omega

/-- C7: an identifier whose PDU format byte is exactly 240 takes the PDU2
branch: the PGN is `(data_page << 16) | (240 << 8) | pdu_specific`. -/
theorem pdu_format_240_is_pdu2 (c : Int)
    (h : Int.land (c >>> (16 : Nat)) 0xFF = 240) :
    (parse_j1939_id c).pgn =
      Int.lor
        (Int.lor ((parse_j1939_id c).data_page <<< (16 : Int))
          ((240 : Int) <<< (8 : Int)))
        (parse_j1939_id c).pdu_specific := by
  rw [shr16, land_byte] at h
  have hR1 : Int.lor (c / 2 ^ 24 % 2 * 2 ^ 16) ((240 : Int) * 2 ^ 8) =
      c / 2 ^ 24 % 2 * 2 ^ 16 + 240 * 2 ^ 8 :=
    lor_add_of 16 (by omega) (dvd_mul_left _ _) (by omega) (by omega)
  have hR2 : Int.lor (c / 2 ^ 24 % 2 * 2 ^ 16 + 240 * 2 ^ 8) (c / 2 ^ 8 % 256) =
      c / 2 ^ 24 % 2 * 2 ^ 16 + 240 * 2 ^ 8 + c / 2 ^ 8 % 256 :=
    lor_add_of 8 (by omega) ⟨c / 2 ^ 24 % 2 * 2 ^ 8 + 240, by ring⟩ (by omega) (by omega)
  simp only [parse_fields_eq, shl16, shl8, hR1, hR2]
  split_ifs with hlt <;> omega

/-- C7 witness: instantiated at the identifier 0x00F00000, whose PDU format
byte is exactly 240. -/
theorem pdu_format_240_is_pdu2_witness :
    Int.land ((0x00F00000 : Int) >>> (16 : Nat)) 0xFF = 240 ∧
    (parse_j1939_id 0x00F00000).pgn =
      Int.lor
        (Int.lor ((parse_j1939_id 0x00F00000).data_page <<< (16 : Int))
          ((240 : Int) <<< (8 : Int)))
        (parse_j1939_id 0x00F00000).pdu_specific :=
  ⟨by rw [shr16, land_byte]; decide,
    pdu_format_240_is_pdu2 0x00F00000 (by rw [shr16, land_byte]; decide)⟩

/-- C8: decoding 0x18FEF100 yields priority 6, reserved 0, data page 0,
PDU format 254, PDU specific 241, source address 0 and PGN 65265. -/
theorem parse_known_id :
    parse_j1939_id 0x18FEF100 =
      { priority := 6, reserved := 0, data_page := 0, pdu_format := 254,
        pdu_specific := 241, source_address := 0, pgn := 65265 } := by
  rw [parse_fields_eq]
  simp only [J1939Fields.mk.injEq]
  refine ⟨by decide, by decide, by decide, by decide, by decide, by decide, by decide⟩

/-- C9: for all integer arguments, negative or over-wide included, the
encoder output lies in `[0, 0x1FFFFFFF]`: only the low 29 bits are ever
set. -/
theorem build_output_29bits (p g s r : Int) :
    0 ≤ build_j1939_id p g s r ∧ build_j1939_id p g s r ≤ 0x1FFFFFFF := by
  simp only [build_eq]
  omega

/-- C10: for every integer input, the derived PGN is at most 0x1FFFF, so it
always fits in 17 bits. -/
theorem parse_pgn_17bits (c : Int) : (parse_j1939_id c).pgn ≤ 0x1FFFF := by
  simp only [parse_fields_eq]
  split_ifs <;> omega

end J1939
